import Mathlib

/-!
Verification of `django-encrypted-fields` (`src/django_encrypted_fields/models.py`).

The development shallowly embeds the encryption field classes:

* Python JSON-like values (the payload of `EncryptedJSONField`) become the
  inductive `JValue`.
* The Fernet primitive is external to the repository; it is modelled
  abstractly but executably: a token is an authenticated, self-describing
  string determined by the encrypting key and the plaintext, and decryption
  with a key succeeds exactly when that key produced the token (matching the
  `InvalidToken`-on-mismatch behaviour the code relies on).
* The Python stdlib `json` module is likewise external; `jsonDumps` and
  `jsonLoads` model `json.dumps` / `json.loads` on the value domain used by
  the field classes (objects, arrays, strings, integers, booleans, null,
  with `", "` / `": "` separators as in CPython's defaults).
* Exceptions become the `Err` sum type.  The spec's taxonomy maps the
  `ValueError` raised by `_decrypt` to `DecryptionFailed`, the
  `ValueError`s raised by `EncryptedJSONField.__init__` to `InvalidPolicy`,
  and `json.JSONDecodeError` to `DeserializationError`; the `TypeError`
  raised by `bytes(value, "utf-8")` on non-string input is kept separate.
-/

/-- Python JSON-like values: scalar (string / int / bool / None),
sequence, or mapping with string keys (insertion ordered, as Python dicts). -/
inductive JValue where
  | str (s : String)
  | num (n : Int)
  | bool (b : Bool)
  | null
  | arr (items : List JValue)
  | obj (entries : List (String × JValue))
deriving Repr

mutual

/-- Decidable equality for `JValue` (the automatic deriving handler does
not support this nested inductive). -/
def JValue.decEq : (a b : JValue) → Decidable (a = b)
  | .str a, .str b =>
    match inferInstanceAs (Decidable (a = b)) with
    | isTrue h => isTrue (by rw [h])
    | isFalse h => isFalse fun hh => h (JValue.str.inj hh)
  | .num a, .num b =>
    match inferInstanceAs (Decidable (a = b)) with
    | isTrue h => isTrue (by rw [h])
    | isFalse h => isFalse fun hh => h (JValue.num.inj hh)
  | .bool a, .bool b =>
    match inferInstanceAs (Decidable (a = b)) with
    | isTrue h => isTrue (by rw [h])
    | isFalse h => isFalse fun hh => h (JValue.bool.inj hh)
  | .null, .null => isTrue rfl
  | .arr a, .arr b =>
    match JValue.decEqList a b with
    | isTrue h => isTrue (by rw [h])
    | isFalse h => isFalse fun hh => h (JValue.arr.inj hh)
  | .obj a, .obj b =>
    match JValue.decEqObj a b with
    | isTrue h => isTrue (by rw [h])
    | isFalse h => isFalse fun hh => h (JValue.obj.inj hh)
  | .str _, .num _ => isFalse fun h => JValue.noConfusion h
  | .str _, .bool _ => isFalse fun h => JValue.noConfusion h
  | .str _, .null => isFalse fun h => JValue.noConfusion h
  | .str _, .arr _ => isFalse fun h => JValue.noConfusion h
  | .str _, .obj _ => isFalse fun h => JValue.noConfusion h
  | .num _, .str _ => isFalse fun h => JValue.noConfusion h
  | .num _, .bool _ => isFalse fun h => JValue.noConfusion h
  | .num _, .null => isFalse fun h => JValue.noConfusion h
  | .num _, .arr _ => isFalse fun h => JValue.noConfusion h
  | .num _, .obj _ => isFalse fun h => JValue.noConfusion h
  | .bool _, .str _ => isFalse fun h => JValue.noConfusion h
  | .bool _, .num _ => isFalse fun h => JValue.noConfusion h
  | .bool _, .null => isFalse fun h => JValue.noConfusion h
  | .bool _, .arr _ => isFalse fun h => JValue.noConfusion h
  | .bool _, .obj _ => isFalse fun h => JValue.noConfusion h
  | .null, .str _ => isFalse fun h => JValue.noConfusion h
  | .null, .num _ => isFalse fun h => JValue.noConfusion h
  | .null, .bool _ => isFalse fun h => JValue.noConfusion h
  | .null, .arr _ => isFalse fun h => JValue.noConfusion h
  | .null, .obj _ => isFalse fun h => JValue.noConfusion h
  | .arr _, .str _ => isFalse fun h => JValue.noConfusion h
  | .arr _, .num _ => isFalse fun h => JValue.noConfusion h
  | .arr _, .bool _ => isFalse fun h => JValue.noConfusion h
  | .arr _, .null => isFalse fun h => JValue.noConfusion h
  | .arr _, .obj _ => isFalse fun h => JValue.noConfusion h
  | .obj _, .str _ => isFalse fun h => JValue.noConfusion h
  | .obj _, .num _ => isFalse fun h => JValue.noConfusion h
  | .obj _, .bool _ => isFalse fun h => JValue.noConfusion h
  | .obj _, .null => isFalse fun h => JValue.noConfusion h
  | .obj _, .arr _ => isFalse fun h => JValue.noConfusion h

/-- Decidable equality for lists of `JValue`. -/
def JValue.decEqList : (a b : List JValue) → Decidable (a = b)
  | [], [] => isTrue rfl
  | [], _ :: _ => isFalse fun h => List.noConfusion h
  | _ :: _, [] => isFalse fun h => List.noConfusion h
  | x :: xs, y :: ys =>
    match JValue.decEq x y with
    | isTrue h1 =>
      match JValue.decEqList xs ys with
      | isTrue h2 => isTrue (by rw [h1, h2])
      | isFalse h2 => isFalse fun hh => h2 (List.cons.inj hh).2
    | isFalse h1 => isFalse fun hh => h1 (List.cons.inj hh).1

/-- Decidable equality for mapping entry lists. -/
def JValue.decEqObj : (a b : List (String × JValue)) → Decidable (a = b)
  | [], [] => isTrue rfl
  | [], _ :: _ => isFalse fun h => List.noConfusion h
  | _ :: _, [] => isFalse fun h => List.noConfusion h
  | (k, x) :: xs, (l, y) :: ys =>
    match inferInstanceAs (Decidable (k = l)) with
    | isTrue hk =>
      match JValue.decEq x y with
      | isTrue h1 =>
        match JValue.decEqObj xs ys with
        | isTrue h2 => isTrue (by rw [hk, h1, h2])
        | isFalse h2 => isFalse fun hh => h2 (List.cons.inj hh).2
      | isFalse h1 =>
        isFalse fun hh => h1 (congrArg Prod.snd (List.cons.inj hh).1)
    | isFalse hk =>
      isFalse fun hh => hk (congrArg Prod.fst (List.cons.inj hh).1)

end

instance : DecidableEq JValue := JValue.decEq

/-- Whether a value is a Python `str` (the `isinstance(value, str)` test). -/
def JValue.isStr : JValue → Bool
  | .str _ => true
  | _ => false

/-- Whether a value is a scalar other than a string (number, boolean, or
`None`). -/
def JValue.nonStringScalar : JValue → Bool
  | .num _ => true
  | .bool _ => true
  | .null => true
  | _ => false

/-- Error kinds surfaced by the embedded operations. -/
inductive Err where
  | invalidPolicy
  | decryptionFailed
  | deserializationError
  | typeError
deriving DecidableEq, Repr

/-- An ordered key ring with at least one key (the data-model invariant:
`settings.MODEL_ENCRYPTION_KEYS` is non-empty; `keys[0]` is the active
encryption key).  Keys are opaque identities, modelled as naturals. -/
structure KeyRing where
  k0 : Nat
  rest : List Nat
deriving DecidableEq, Repr

/-- All keys of the ring, in order. -/
def KeyRing.keys (r : KeyRing) : List Nat := r.k0 :: r.rest

/-- Unary rendering of a key identity inside a token. -/
def keyChars (k : Nat) : List Char := List.replicate k 'k'

/-- Model of `Fernet(key).encrypt(...)`: an opaque authenticated token
embedding the key identity and the UTF-8 plaintext. -/
def fernetEncrypt (k : Nat) (p : String) : String :=
  String.mk ('g' :: 'A' :: 'A' :: 'A' :: 'A' :: '|' :: (keyChars k ++ '|' :: p.toList))

/-- Consume the key field of a token body: succeeds exactly when the
token was produced by the given key, returning the plaintext characters. -/
def matchKey : Nat → List Char → Option (List Char)
  | 0, '|' :: p => some p
  | 0, _ => none
  | n + 1, 'k' :: rs => matchKey n rs
  | _ + 1, _ => none

/-- Model of `Fernet(key).decrypt(...)`: returns the plaintext when the
token is authentic under `k`, and `none` (the `InvalidToken` signal) when
the token was produced by a different key or is malformed. -/
def fernetDecrypt (k : Nat) (t : String) : Option String :=
  match t.toList with
  | 'g' :: 'A' :: 'A' :: 'A' :: 'A' :: '|' :: body => (matchKey k body).map String.mk
  | _ => none

/-- One character of a JSON string literal, escaped as `json.dumps` emits it
(for the escapes this model produces: quote, backslash, newline, tab, CR). -/
def escapeChar (c : Char) : List Char :=
  if c = '"' then ['\\', '"']
  else if c = '\\' then ['\\', '\\']
  else if c = '\n' then ['\\', 'n']
  else if c = '\t' then ['\\', 't']
  else if c = '\r' then ['\\', 'r']
  else [c]

/-- Escape every character of a JSON string body. -/
def escapeChars : List Char → List Char
  | [] => []
  | c :: cs => escapeChar c ++ escapeChars cs

/-- A JSON string literal with surrounding quotes. -/
def quoteJson (s : String) : String :=
  String.mk ('"' :: (escapeChars s.toList ++ ['"']))

mutual

/-- Model of `json.dumps` with CPython's default separators
(`", "` between items, `": "` after keys). -/
def jsonDumps : JValue → String
  | .str s => quoteJson s
  | .num n => toString n
  | .bool true => "true"
  | .bool false => "false"
  | .null => "null"
  | .arr items => "[" ++ dumpsItems items ++ "]"
  | .obj entries => "\x7b" ++ dumpsEntries entries ++ "\x7d"

/-- Serialize the comma-separated items of a JSON array. -/
def dumpsItems : List JValue → String
  | [] => ""
  | [x] => jsonDumps x
  | x :: y :: rest => jsonDumps x ++ ", " ++ dumpsItems (y :: rest)

/-- Serialize the comma-separated entries of a JSON object. -/
def dumpsEntries : List (String × JValue) → String
  | [] => ""
  | [(k, v)] => quoteJson k ++ ": " ++ jsonDumps v
  | (k, v) :: e :: rest =>
    quoteJson k ++ ": " ++ jsonDumps v ++ ", " ++ dumpsEntries (e :: rest)

end

/-- JSON whitespace. -/
def isWs (c : Char) : Bool := c == ' ' || c == '\n' || c == '\t' || c == '\r'

/-- Drop leading JSON whitespace. -/
def skipWs : List Char → List Char
  | c :: cs => if isWs c then skipWs cs else c :: cs
  | [] => []

/-- Parse the body of a JSON string literal (after the opening quote),
returning the unescaped characters and the input after the closing quote. -/
def parseStrChars : List Char → Option (List Char × List Char)
  | '"' :: rest => some ([], rest)
  | '\\' :: c :: rest =>
    let dec := if c = 'n' then '\n' else if c = 't' then '\t' else if c = 'r' then '\r' else c
    (parseStrChars rest).map fun p => (dec :: p.1, p.2)
  | c :: rest => (parseStrChars rest).map fun p => (c :: p.1, p.2)
  | [] => none

/-- Split a maximal run of ASCII digits off the front of the input. -/
def parseDigits : List Char → (List Char × List Char)
  | c :: cs =>
    if c.isDigit then
      let p := parseDigits cs
      (c :: p.1, p.2)
    else ([], c :: cs)
  | [] => ([], [])

/-- Decimal value of a digit run. -/
def digitsToNat (ds : List Char) : Nat :=
  ds.foldl (fun a c => a * 10 + (c.toNat - 48)) 0

mutual

/-- Model of the JSON value grammar accepted by `json.loads` on the value
domain this program produces; `fuel` bounds the recursion depth. -/
def parseVal : Nat → List Char → Option (JValue × List Char)
  | 0, _ => none
  | fuel + 1, cs =>
    match skipWs cs with
    | '\x7b' :: rest =>
      match skipWs rest with
      | '\x7d' :: r => some (.obj [], r)
      | cs2 => (parseEntries fuel cs2).map fun p => (.obj p.1, p.2)
    | '[' :: rest =>
      match skipWs rest with
      | ']' :: r => some (.arr [], r)
      | cs2 => (parseItems fuel cs2).map fun p => (.arr p.1, p.2)
    | '"' :: rest => (parseStrChars rest).map fun p => (.str (String.mk p.1), p.2)
    | 'n' :: 'u' :: 'l' :: 'l' :: rest => some (.null, rest)
    | 't' :: 'r' :: 'u' :: 'e' :: rest => some (.bool true, rest)
    | 'f' :: 'a' :: 'l' :: 's' :: 'e' :: rest => some (.bool false, rest)
    | '-' :: rest =>
      match parseDigits rest with
      | ([], _) => none
      | (ds, r) => some (.num (-(digitsToNat ds : Int)), r)
    | c :: rest =>
      if c.isDigit then
        some (.num (digitsToNat (parseDigits (c :: rest)).1), (parseDigits (c :: rest)).2)
      else none
    | [] => none

/-- Parse the non-empty entry list of a JSON object, consuming the
closing brace. -/
def parseEntries : Nat → List Char → Option (List (String × JValue) × List Char)
  | 0, _ => none
  | fuel + 1, cs =>
    match skipWs cs with
    | '"' :: rest =>
      match parseStrChars rest with
      | some (kcs, r1) =>
        match skipWs r1 with
        | ':' :: r2 =>
          match parseVal fuel r2 with
          | some (v, r3) =>
            match skipWs r3 with
            | ',' :: r4 =>
              (parseEntries fuel r4).map fun p => ((String.mk kcs, v) :: p.1, p.2)
            | '\x7d' :: r4 => some ([(String.mk kcs, v)], r4)
            | _ => none
          | none => none
        | _ => none
      | none => none
    | _ => none

/-- Parse the non-empty item list of a JSON array, consuming the
closing bracket. -/
def parseItems : Nat → List Char → Option (List JValue × List Char)
  | 0, _ => none
  | fuel + 1, cs =>
    match parseVal fuel cs with
    | some (v, r1) =>
      match skipWs r1 with
      | ',' :: r2 => (parseItems fuel r2).map fun p => (v :: p.1, p.2)
      | ']' :: r2 => some ([v], r2)
      | _ => none
    | none => none

end

/-- Model of `json.loads`: parse one JSON value and require the remaining
input to be whitespace only (CPython raises `JSONDecodeError` otherwise,
which the embedding reports as `none`). -/
def jsonLoads (s : String) : Option JValue :=
  match parseVal (2 * s.toList.length + 4) s.toList with
  | some (v, r) => if skipWs r = [] then some v else none
  | none => none

/-- `BaseEncryptedField._encrypt`: `bytes(value, "utf-8")` requires a
`str` (otherwise `TypeError`), then key 0 of the ring encrypts it. -/
def base_encrypt (ring : KeyRing) (value : JValue) : Except Err String :=
  match value with
  | .str s => .ok (fernetEncrypt ring.k0 s)
  | _ => .error .typeError

/-- The loop body of `BaseEncryptedField._decrypt`: try each key in order,
return the first success, raise `ValueError` ("Decryption failed for all
provided keys.") when every key rejects. -/
def decryptLoop : List Nat → String → Except Err String
  | [], _ => .error .decryptionFailed
  | k :: ks, s =>
    match fernetDecrypt k s with
    | some p => .ok p
    | none => decryptLoop ks s

/-- `BaseEncryptedField._decrypt`: `bytes(value, "utf-8")` requires a
`str`, then the keys are tried in ring order. -/
def base_decrypt (ring : KeyRing) (value : JValue) : Except Err String :=
  match value with
  | .str s => decryptLoop ring.keys s
  | _ => .error .typeError

/-- The policy state an `EncryptedJSONField` instance carries after a
successful `__init__`: the `encrypt_all` flag and the target field names
(`None` is modelled as the empty list, matching Python falsiness). -/
structure EncryptedJSONField where
  encrypt_all : Bool
  target_fields : List String
deriving DecidableEq, Repr

/-- `EncryptedJSONField.__init__`: rejects `target_fields` together with
`encrypt_all`, and rejects neither being (truthily) set; the spec names
both `ValueError`s `InvalidPolicy`. -/
def field_init (encrypt_all : Bool) (target_fields : List String) : Except Err EncryptedJSONField :=
  if target_fields ≠ [] ∧ encrypt_all then .error .invalidPolicy
  else if target_fields = [] ∧ ¬encrypt_all then .error .invalidPolicy
  else .ok ⟨encrypt_all, target_fields⟩

/-- `EncryptedJSONField._encrypt_or_decrypt_all`: encrypt `json.dumps` of
the value as one token, or decrypt the token and `json.loads` the result. -/
def encrypt_or_decrypt_all (ring : KeyRing) (value : JValue) (encrypt : Bool) :
    Except Err JValue :=
  if encrypt then
    (base_encrypt ring (.str (jsonDumps value))).map .str
  else do
    let p ← base_decrypt ring value
    match jsonLoads p with
    | some w => .ok w
    | none => .error .deserializationError

/-- `EncryptedJSONField._encrypt_or_decrypt_target_field`: a `dict` or
`list` value is handled as a whole (`_encrypt_or_decrypt_all`); anything
else goes straight to `_encrypt` / `_decrypt`. -/
def encrypt_or_decrypt_target_field (ring : KeyRing) (value : JValue) (encrypt : Bool) :
    Except Err JValue :=
  match value with
  | .obj _ => encrypt_or_decrypt_all ring value encrypt
  | .arr _ => encrypt_or_decrypt_all ring value encrypt
  | _ =>
    if encrypt then (base_encrypt ring value).map .str
    else (base_decrypt ring value).map .str

mutual

/-- `EncryptedJSONField._encrypt_or_decrypt_dict`: `value.copy()` followed
by entry-wise reassignment, i.e. a rebuild of the entry list; entries whose
key is in `target_fields` go through `_encrypt_or_decrypt_target_field`,
the rest recurse through `_encrypt_or_decrypt_value`. -/
def encrypt_or_decrypt_dict (f : EncryptedJSONField) (ring : KeyRing)
    (entries : List (String × JValue)) (encrypt : Bool) :
    Except Err (List (String × JValue)) :=
  match entries with
  | [] => .ok []
  | (k, v) :: rest => do
    let v' ←
      if k ∈ f.target_fields then encrypt_or_decrypt_target_field ring v encrypt
      else encrypt_or_decrypt_value f ring v encrypt
    let rest' ← encrypt_or_decrypt_dict f ring rest encrypt
    .ok ((k, v') :: rest')

/-- `EncryptedJSONField._encrypt_or_decrypt_list`: a new list built from
the recursively processed items. -/
def encrypt_or_decrypt_list (f : EncryptedJSONField) (ring : KeyRing)
    (items : List JValue) (encrypt : Bool) : Except Err (List JValue) :=
  match items with
  | [] => .ok []
  | v :: rest => do
    let v' ← encrypt_or_decrypt_value f ring v encrypt
    let rest' ← encrypt_or_decrypt_list f ring rest encrypt
    .ok (v' :: rest')

/-- `EncryptedJSONField._encrypt_or_decrypt_value`: dispatch on `dict` /
`list`; any other value is returned unchanged. -/
def encrypt_or_decrypt_value (f : EncryptedJSONField) (ring : KeyRing)
    (value : JValue) (encrypt : Bool) : Except Err JValue :=
  match value with
  | .obj entries => (encrypt_or_decrypt_dict f ring entries encrypt).map .obj
  | .arr items => (encrypt_or_decrypt_list f ring items encrypt).map .arr
  | v => .ok v

end

/-- `EncryptedJSONField.get_prep_value`: `EncryptAll` seals the whole value
as one token; otherwise the selective walk runs with `encrypt=True`. -/
def get_prep_value (f : EncryptedJSONField) (ring : KeyRing) (value : JValue) : Except Err JValue :=
  if f.encrypt_all then encrypt_or_decrypt_all ring value true
  else encrypt_or_decrypt_value f ring value true

/-- `EncryptedJSONField.to_python`: `None`, non-`str` input, and the
transient `_already_decrypted` state pass through unchanged; a string is
either decrypted whole (`EncryptAll`) or `json.loads`-parsed and walked
with `encrypt=False`. -/
def to_python (f : EncryptedJSONField) (ring : KeyRing) (value : Option JValue)
    (already_decrypted : Bool) : Except Err (Option JValue) :=
  match value with
  | none => .ok none
  | some w =>
    if already_decrypted then .ok (some w)
    else
      match w with
      | .str s =>
        if f.encrypt_all then (encrypt_or_decrypt_all ring (.str s) false).map some
        else
          match jsonLoads s with
          | some parsed => (encrypt_or_decrypt_value f ring parsed false).map some
          | none => .error .deserializationError
      | _ => .ok (some w)

/-- The column string the ORM stores for a prepared value: with
`EncryptAll` the field's internal type is `TextField` and the token string
is stored verbatim; otherwise Django's `JSONField` serializes the prepared
structure with `json.dumps`. -/
def stored_string (f : EncryptedJSONField) (prepared : JValue) : String :=
  match f.encrypt_all, prepared with
  | true, .str s => s
  | _, w => jsonDumps w

/-- The `seal` operation of the spec: prepare the value and serialize it for storage. -/
def sealStr (f : EncryptedJSONField) (ring : KeyRing) (value : JValue) : Except Err String :=
  (get_prep_value f ring value).map (stored_string f)

/-- The `unseal` operation of the spec: `to_python` on the stored string, outside any
`clean` call (`_already_decrypted` unset). -/
def unsealStr (f : EncryptedJSONField) (ring : KeyRing) (s : String) : Except Err (Option JValue) :=
  to_python f ring (some (.str s)) false

/-- `EncryptedTextField.get_prep_value`: `_encrypt` of the raw value. -/
def text_get_prep_value (ring : KeyRing) (value : JValue) : Except Err String :=
  base_encrypt ring value

/-- `EncryptedTextField.to_python`: the same pass-through guard as the JSON
field, then `_decrypt`. -/
def text_to_python (ring : KeyRing) (value : Option JValue)
    (already_decrypted : Bool) : Except Err (Option JValue) :=
  match value with
  | none => .ok none
  | some w =>
    if already_decrypted then .ok (some w)
    else
      match w with
      | .str s => (decryptLoop ring.keys s).map (fun p => some (.str p))
      | _ => .ok (some w)

/-- `String.mk` undoes `String.toList`. -/
theorem string_mk_toList (s : String) : String.mk s.toList = s := rfl

@[simp] theorem except_map_ok {ε α β : Type} (f : α → β) (x : α) :
    Except.map f (Except.ok x : Except ε α) = Except.ok (f x) := rfl

@[simp] theorem except_map_error {ε α β : Type} (f : α → β) (e : ε) :
    Except.map f (Except.error e : Except ε α) = (Except.error e : Except ε β) := rfl

@[simp] theorem except_bind_ok {ε α β : Type} (x : α) (f : α → Except ε β) :
    ((Except.ok x : Except ε α) >>= f) = f x := rfl

@[simp] theorem except_bind_error {ε α β : Type} (e : ε) (f : α → Except ε β) :
    ((Except.error e : Except ε α) >>= f) = (Except.error e : Except ε β) := rfl

/-- `matchKey` accepts exactly the key that built the token body. -/
theorem matchKey_keyChars (k k' : Nat) (ps : List Char) :
    matchKey k (keyChars k' ++ '|' :: ps) = if k = k' then some ps else none := by
  induction k generalizing k' with
  | zero =>
    cases k' with
    | zero => simp [keyChars, matchKey]
    | succ j => simp [keyChars, List.replicate_succ, matchKey]
  | succ i ih =>
    cases k' with
    | zero => simp [keyChars, matchKey]
    | succ j =>
      simp only [keyChars, List.replicate_succ, List.cons_append, matchKey, List.append_eq]
      rw [show List.replicate j 'k' = keyChars j from rfl, ih j]
      simp [Nat.succ_inj]

/-- Decrypting a token with the key that produced it yields the plaintext. -/
theorem fernetDecrypt_fernetEncrypt (k k' : Nat) (p : String) :
    fernetDecrypt k (fernetEncrypt k' p) = if k = k' then some p else none := by
  show (matchKey k (keyChars k' ++ '|' :: p.toList)).map String.mk
        = if k = k' then some p else none
  rw [matchKey_keyChars]
  by_cases h : k = k'
  · simp [h, string_mk_toList]
  · simp [h]

/-- When the decryption loop raises, the error is `DecryptionFailed` and
every key in the list rejected the token. -/
theorem decryptLoop_error (ks : List Nat) (t : String) (e : Err)
    (h : decryptLoop ks t = .error e) :
    e = .decryptionFailed ∧ ∀ k ∈ ks, fernetDecrypt k t = none := by
  induction ks with
  | nil =>
    refine ⟨?_, by simp⟩
    simpa [decryptLoop] using h.symm
  | cons k ks ih =>
    rcases hk : fernetDecrypt k t with _ | p
    · have h' : decryptLoop ks t = .error e := by
        simpa [decryptLoop, hk] using h
      rcases ih h' with ⟨he, hall⟩
      refine ⟨he, ?_⟩
      intro k' hk'
      rcases List.mem_cons.mp hk' with rfl | hmem
      · exact hk
      · exact hall k' hmem
    · simp [decryptLoop, hk] at h

/-- When every key rejects the token, the loop raises `DecryptionFailed`. -/
theorem decryptLoop_all_fail (ks : List Nat) (t : String)
    (h : ∀ k ∈ ks, fernetDecrypt k t = none) :
    decryptLoop ks t = .error .decryptionFailed := by
  induction ks with
  | nil => rfl
  | cons k ks ih =>
    have hk : fernetDecrypt k t = none := h k (List.mem_cons_self k ks)
    have hrest : ∀ k' ∈ ks, fernetDecrypt k' t = none :=
      fun k' hm => h k' (List.mem_cons_of_mem k hm)
    simp [decryptLoop, hk, ih hrest]

/-- The loop returns the plaintext from the first key that accepts. -/
theorem decryptLoop_first (ks1 : List Nat) (k : Nat) (ks2 : List Nat)
    (t p : String) (hfail : ∀ k' ∈ ks1, fernetDecrypt k' t = none)
    (hok : fernetDecrypt k t = some p) :
    decryptLoop (ks1 ++ k :: ks2) t = .ok p := by
  induction ks1 with
  | nil => simp [decryptLoop, hok]
  | cons k' ks1 ih =>
    have hk' : fernetDecrypt k' t = none := hfail k' (List.mem_cons_self k' ks1)
    have hrest : ∀ x ∈ ks1, fernetDecrypt x t = none :=
      fun x hm => hfail x (List.mem_cons_of_mem k' hm)
    simp [decryptLoop, hk', ih hrest]

/-- A successful decryption is the output of some key of the list. -/
theorem decryptLoop_ok (ks : List Nat) (t p : String)
    (h : decryptLoop ks t = .ok p) :
    ∃ k ∈ ks, fernetDecrypt k t = some p := by
  induction ks with
  | nil => simp [decryptLoop] at h
  | cons k ks ih =>
    rcases hk : fernetDecrypt k t with _ | q
    · have h' : decryptLoop ks t = .ok p := by simpa [decryptLoop, hk] using h
      rcases ih h' with ⟨k', hmem, hdec⟩
      exact ⟨k', List.mem_cons_of_mem k hmem, hdec⟩
    · have : q = p := by simpa [decryptLoop, hk] using h
      exact ⟨k, List.mem_cons_self k ks, this ▸ hk⟩

/-- Claim C3: `_decrypt` tries the ring's keys in order and returns the
plaintext from the first key that accepts the token; it fails if and only
if every key rejects the token, and then always with the single
`DecryptionFailed` error kind; a successful result is the plaintext some
ring key accepts, never an unrelated value. -/
theorem C3_decrypt_first_success_or_decryption_failed (ring : KeyRing) (t : String) :
    (∀ e, base_decrypt ring (.str t) = .error e →
      e = .decryptionFailed ∧ ∀ k ∈ ring.keys, fernetDecrypt k t = none)
    ∧ ((∀ k ∈ ring.keys, fernetDecrypt k t = none) →
      base_decrypt ring (.str t) = .error .decryptionFailed)
    ∧ (∀ ks1 k ks2 p, ring.keys = ks1 ++ k :: ks2 →
      (∀ k' ∈ ks1, fernetDecrypt k' t = none) → fernetDecrypt k t = some p →
      base_decrypt ring (.str t) = .ok p)
    ∧ (∀ p, base_decrypt ring (.str t) = .ok p →
      ∃ k ∈ ring.keys, fernetDecrypt k t = some p) := by
  refine ⟨?_, ?_, ?_, ?_⟩
  · intro e h
    exact decryptLoop_error ring.keys t e h
  · intro h
    exact decryptLoop_all_fail ring.keys t h
  · intro ks1 k ks2 p hsplit hfail hok
    show decryptLoop ring.keys t = .ok p
    rw [hsplit]
    exact decryptLoop_first ks1 k ks2 t p hfail hok
  · intro p h
    exact decryptLoop_ok ring.keys t p h

/-- Witness for C3 at a concrete ring and token: the ring `[5, 7]` decrypts
a token produced under key `7` by falling past key `5`. -/
theorem C3_witness :
    base_decrypt ⟨5, [7]⟩ (.str (fernetEncrypt 7 "hi")) = .ok "hi" :=
  (C3_decrypt_first_success_or_decryption_failed ⟨5, [7]⟩ (fernetEncrypt 7 "hi")).2.2.1
    [5] 7 [] "hi" rfl (by decide) (by decide)

/-- Claim C4: encryption always uses key 0 of the ring, and a value sealed
under the ring `[oldKey]` still unseals after rotating the ring to
`[newKey, oldKey]` (decryption falls back to `oldKey`). -/
theorem C4_key_rotation (ring : KeyRing) (s : String) (oldKey newKey : Nat) (p : String) :
    base_encrypt ring (.str s) = .ok (fernetEncrypt ring.k0 s)
    ∧ base_decrypt ⟨newKey, [oldKey]⟩ (.str (fernetEncrypt oldKey p)) = .ok p := by
  refine ⟨rfl, ?_⟩
  show decryptLoop [newKey, oldKey] (fernetEncrypt oldKey p) = .ok p
  by_cases h : newKey = oldKey
  · subst h
    simp [decryptLoop, fernetDecrypt_fernetEncrypt]
  · simp [decryptLoop, fernetDecrypt_fernetEncrypt, h]

/-- Claim C5: constructing an encrypted-JSON field with both `encrypt_all`
and a non-empty `target_fields` fails with `InvalidPolicy`, constructing
with neither set fails with `InvalidPolicy`, and constructing with exactly
one of the two succeeds. -/
theorem C5_policy_validation :
    (∀ tfs, tfs ≠ [] → field_init true tfs = .error .invalidPolicy)
    ∧ field_init false [] = .error .invalidPolicy
    ∧ (∀ tfs, tfs ≠ [] → field_init false tfs = .ok ⟨false, tfs⟩)
    ∧ field_init true [] = .ok ⟨true, []⟩ := by
  refine ⟨?_, by simp [field_init], ?_, by simp [field_init]⟩
  · intro tfs h
    simp [field_init, h]
  · intro tfs h
    simp [field_init, h]

/-- Witness for C5 at the concrete target set `{"x"}`. -/
theorem C5_witness :
    field_init true ["x"] = .error .invalidPolicy
    ∧ field_init false ["x"] = .ok ⟨false, ["x"]⟩ :=
  ⟨C5_policy_validation.1 ["x"] (by decide),
   C5_policy_validation.2.2.1 ["x"] (by decide)⟩

/-- Claim C6: under `TargetFields({"secret"})` with input
`{"secret": "x", "public": "y"}`, sealing leaves `public` as the plaintext
`"y"`, replaces `secret` by a ciphertext token different from `"x"`, and
unsealing the stored string recovers the input exactly. -/
theorem C6_target_field_isolation :
    get_prep_value ⟨false, ["secret"]⟩ ⟨0, []⟩
        (.obj [("secret", .str "x"), ("public", .str "y")])
      = .ok (.obj [("secret", .str (fernetEncrypt 0 "x")), ("public", .str "y")])
    ∧ fernetEncrypt 0 "x" ≠ "x"
    ∧ ((sealStr ⟨false, ["secret"]⟩ ⟨0, []⟩
          (.obj [("secret", .str "x"), ("public", .str "y")])).bind
        fun s => unsealStr ⟨false, ["secret"]⟩ ⟨0, []⟩ s)
      = .ok (some (.obj [("secret", .str "x"), ("public", .str "y")])) := by
  exact ⟨rfl, by decide, rfl⟩

/-- Claim C7: with the `EncryptAll` policy, sealing any value encrypts its
single JSON serialization under key 0 as one ciphertext token (a single
string, not a structure), and unsealing a stored string is exactly the
inverse pipeline: decrypt the whole token with the ring, then parse the
result as JSON. -/
theorem C7_encrypt_all_single_token (tfs : List String) (ring : KeyRing)
    (v : JValue) (s : String) :
    get_prep_value ⟨true, tfs⟩ ring v = .ok (.str (fernetEncrypt ring.k0 (jsonDumps v)))
    ∧ sealStr ⟨true, tfs⟩ ring v = .ok (fernetEncrypt ring.k0 (jsonDumps v))
    ∧ unsealStr ⟨true, tfs⟩ ring s
      = ((base_decrypt ring (.str s)).bind fun p =>
          match jsonLoads p with
          | some w => Except.ok w
          | none => Except.error Err.deserializationError).map some := by
  exact ⟨rfl, rfl, rfl⟩

/-- Claim C8: `to_python` (for both the JSON field and the text field)
returns `None` and any non-string input unchanged, performing no
decryption or JSON parsing. -/
theorem C8_passthrough (f : EncryptedJSONField) (ring : KeyRing) (d : Bool) :
    to_python f ring none d = .ok none
    ∧ text_to_python ring none d = .ok none
    ∧ (∀ w : JValue, w.isStr = false →
        to_python f ring (some w) d = .ok (some w)
        ∧ text_to_python ring (some w) d = .ok (some w)) := by
  refine ⟨rfl, rfl, ?_⟩
  intro w hw
  cases d with
  | true => exact ⟨rfl, rfl⟩
  | false =>
    cases w with
    | str s => simp [JValue.isStr] at hw
    | num n => exact ⟨rfl, rfl⟩
    | bool b => exact ⟨rfl, rfl⟩
    | null => exact ⟨rfl, rfl⟩
    | arr items => exact ⟨rfl, rfl⟩
    | obj entries => exact ⟨rfl, rfl⟩

/-- Witness for C8: an already-deserialized mapping passes through both
fields unchanged. -/
theorem C8_witness :
    to_python ⟨true, []⟩ ⟨0, []⟩ (some (.obj [("a", .num 1)])) false
      = .ok (some (.obj [("a", .num 1)]))
    ∧ text_to_python ⟨0, []⟩ (some (.num 3)) false = .ok (some (.num 3)) :=
  ⟨((C8_passthrough ⟨true, []⟩ ⟨0, []⟩ false).2.2 (.obj [("a", .num 1)]) rfl).1,
   ((C8_passthrough ⟨true, []⟩ ⟨0, []⟩ false).2.2 (.num 3) rfl).2⟩

/-- Claim C1 (evaluated at the failing input): under
`TargetFields({"secret"})`, sealing `{"secret": {"a": "x"}}` and unsealing
the stored string does NOT return the original value: the target field
comes back as the JSON text `"\x7b\"a\": \"x\"\x7d"` (a string), because
`_encrypt_or_decrypt_target_field` serializes a structured target value
with `json.dumps` before encrypting but never applies `json.loads` after
decrypting. -/
theorem C1_roundtrip_fails_on_structured_target :
    ((sealStr ⟨false, ["secret"]⟩ ⟨0, []⟩
        (.obj [("secret", .obj [("a", .str "x")])])).bind
      fun s => unsealStr ⟨false, ["secret"]⟩ ⟨0, []⟩ s)
      = .ok (some (.obj [("secret", .str "\x7b\"a\": \"x\"\x7d")]))
    ∧ JValue.obj [("secret", JValue.str "\x7b\"a\": \"x\"\x7d")]
      ≠ JValue.obj [("secret", JValue.obj [("a", JValue.str "x")])] :=
  ⟨rfl, by decide⟩

/-- Claim C2 (counterexample): sealing `{"secret": {"a": "x"}}` under
`TargetFields({"secret"})` stores at `"secret"` a single ciphertext string,
not a mapping whose scalar leaves were individually encrypted, refuting
the claim's described representation at this input. -/
theorem C2_counterexample :
    get_prep_value ⟨false, ["secret"]⟩ ⟨0, []⟩
        (.obj [("secret", .obj [("a", .str "x")])])
      = .ok (.obj [("secret",
          .str (fernetEncrypt 0 (jsonDumps (.obj [("a", .str "x")]))))])
    ∧ JValue.str (fernetEncrypt 0 (jsonDumps (.obj [("a", .str "x")])))
      ≠ JValue.obj [("a", JValue.str (fernetEncrypt 0 "x"))] :=
  ⟨rfl, by decide⟩

/-- Claim C2 (amended): under a TargetFields policy a target entry whose
value is a Mapping or Sequence is JSON-serialized and encrypted as one
single ciphertext token (not leaf by leaf), a target entry whose value is
a string scalar is encrypted directly into a single token, and the dict
walk routes exactly the entries whose key is in the target set through
this rule. -/
theorem C2_amended_target_sealed_as_single_token (f : EncryptedJSONField)
    (ring : KeyRing) (k : String) (v : JValue) (rest : List (String × JValue))
    (h : k ∈ f.target_fields) :
    (∀ entries, v = .obj entries →
      encrypt_or_decrypt_target_field ring v true
        = .ok (.str (fernetEncrypt ring.k0 (jsonDumps v))))
    ∧ (∀ items, v = .arr items →
      encrypt_or_decrypt_target_field ring v true
        = .ok (.str (fernetEncrypt ring.k0 (jsonDumps v))))
    ∧ (∀ s, v = .str s →
      encrypt_or_decrypt_target_field ring v true
        = .ok (.str (fernetEncrypt ring.k0 s)))
    ∧ encrypt_or_decrypt_dict f ring ((k, v) :: rest) true
      = ((encrypt_or_decrypt_target_field ring v true).bind fun v' =>
          (encrypt_or_decrypt_dict f ring rest true).bind fun rest' =>
          .ok ((k, v') :: rest')) := by
  refine ⟨?_, ?_, ?_, ?_⟩
  · rintro entries rfl
    rfl
  · rintro items rfl
    rfl
  · rintro s rfl
    rfl
  · simp only [encrypt_or_decrypt_dict]
    rw [if_pos h]
    rfl

/-- Witness for C2 (amended) at the concrete mapping value
`{"a": "x"}`: the target field becomes one token over its JSON dump. -/
theorem C2_amended_witness :
    encrypt_or_decrypt_target_field ⟨0, []⟩ (.obj [("a", .str "x")]) true
      = .ok (.str (fernetEncrypt 0 (jsonDumps (.obj [("a", .str "x")])))) :=
  (C2_amended_target_sealed_as_single_token ⟨false, ["secret"]⟩ ⟨0, []⟩ "secret"
      (.obj [("a", .str "x")]) [] (by decide)).1 [("a", .str "x")] rfl

/-- Encrypting a target field either succeeds or raises `TypeError`
(the only failure of `_encrypt` is `bytes(value, "utf-8")` on non-`str`). -/
theorem enc_target_cases (ring : KeyRing) (v : JValue) :
    (∃ w, encrypt_or_decrypt_target_field ring v true = .ok w)
    ∨ encrypt_or_decrypt_target_field ring v true = .error .typeError := by
  cases v with
  | str s => exact Or.inl ⟨.str (fernetEncrypt ring.k0 s), rfl⟩
  | num n => exact Or.inr rfl
  | bool b => exact Or.inr rfl
  | null => exact Or.inr rfl
  | arr items => exact Or.inl ⟨_, rfl⟩
  | obj entries => exact Or.inl ⟨_, rfl⟩

mutual

/-- The selective encrypt walk either succeeds or raises `TypeError`. -/
theorem enc_value_cases (f : EncryptedJSONField) (ring : KeyRing) :
    ∀ v : JValue,
      (∃ w, encrypt_or_decrypt_value f ring v true = .ok w)
      ∨ encrypt_or_decrypt_value f ring v true = .error .typeError
  | .str s => Or.inl ⟨.str s, rfl⟩
  | .num n => Or.inl ⟨.num n, rfl⟩
  | .bool b => Or.inl ⟨.bool b, rfl⟩
  | .null => Or.inl ⟨.null, rfl⟩
  | .arr items => by
    rcases enc_list_cases f ring items with ⟨ws, hw⟩ | hw
    · exact Or.inl ⟨.arr ws, by simp [encrypt_or_decrypt_value, hw]⟩
    · exact Or.inr (by simp [encrypt_or_decrypt_value, hw])
  | .obj entries => by
    rcases enc_dict_cases f ring entries with ⟨ws, hw⟩ | hw
    · exact Or.inl ⟨.obj ws, by simp [encrypt_or_decrypt_value, hw]⟩
    · exact Or.inr (by simp [encrypt_or_decrypt_value, hw])

/-- The dict walk in encrypt mode either succeeds or raises `TypeError`. -/
theorem enc_dict_cases (f : EncryptedJSONField) (ring : KeyRing) :
    ∀ es : List (String × JValue),
      (∃ ws, encrypt_or_decrypt_dict f ring es true = .ok ws)
      ∨ encrypt_or_decrypt_dict f ring es true = .error .typeError
  | [] => Or.inl ⟨[], rfl⟩
  | (k, v) :: rest => by
    by_cases hk : k ∈ f.target_fields
    · rcases enc_target_cases ring v with ⟨w, hw⟩ | hw
      · rcases enc_dict_cases f ring rest with ⟨ws, hws⟩ | hws
        · exact Or.inl ⟨(k, w) :: ws, by simp [encrypt_or_decrypt_dict, hk, hw, hws]⟩
        · exact Or.inr (by simp [encrypt_or_decrypt_dict, hk, hw, hws])
      · exact Or.inr (by simp [encrypt_or_decrypt_dict, hk, hw])
    · rcases enc_value_cases f ring v with ⟨w, hw⟩ | hw
      · rcases enc_dict_cases f ring rest with ⟨ws, hws⟩ | hws
        · exact Or.inl ⟨(k, w) :: ws, by simp [encrypt_or_decrypt_dict, hk, hw, hws]⟩
        · exact Or.inr (by simp [encrypt_or_decrypt_dict, hk, hw, hws])
      · exact Or.inr (by simp [encrypt_or_decrypt_dict, hk, hw])

/-- The list walk in encrypt mode either succeeds or raises `TypeError`. -/
theorem enc_list_cases (f : EncryptedJSONField) (ring : KeyRing) :
    ∀ items : List JValue,
      (∃ ws, encrypt_or_decrypt_list f ring items true = .ok ws)
      ∨ encrypt_or_decrypt_list f ring items true = .error .typeError
  | [] => Or.inl ⟨[], rfl⟩
  | v :: rest => by
    rcases enc_value_cases f ring v with ⟨w, hw⟩ | hw
    · rcases enc_list_cases f ring rest with ⟨ws, hws⟩ | hws
      · exact Or.inl ⟨w :: ws, by simp [encrypt_or_decrypt_list, hw, hws]⟩
      · exact Or.inr (by simp [encrypt_or_decrypt_list, hw, hws])
    · exact Or.inr (by simp [encrypt_or_decrypt_list, hw])

end

/-- A mapping with a target-set key holding a non-string scalar always
makes the encrypt walk raise `TypeError`, wherever the entry sits. -/
theorem enc_dict_target_scalar_error (f : EncryptedJSONField) (ring : KeyRing)
    (post : List (String × JValue)) (k : String) (v : JValue)
    (hk : k ∈ f.target_fields) (hv : v.nonStringScalar = true)
    (pre : List (String × JValue)) :
    encrypt_or_decrypt_dict f ring (pre ++ (k, v) :: post) true = .error .typeError := by
  induction pre with
  | nil =>
    have hv' : encrypt_or_decrypt_target_field ring v true = .error .typeError := by
      cases v with
      | str s => simp [JValue.nonStringScalar] at hv
      | num n => rfl
      | bool b => rfl
      | null => rfl
      | arr items => simp [JValue.nonStringScalar] at hv
      | obj entries => simp [JValue.nonStringScalar] at hv
    simp [encrypt_or_decrypt_dict, hk, hv']
  | cons e pre ih =>
    rcases e with ⟨k', v'⟩
    by_cases hk' : k' ∈ f.target_fields
    · rcases enc_target_cases ring v' with ⟨w, hw⟩ | hw
      · simp [encrypt_or_decrypt_dict, hk', hw, ih]
      · simp [encrypt_or_decrypt_dict, hk', hw]
    · rcases enc_value_cases f ring v' with ⟨w, hw⟩ | hw
      · simp [encrypt_or_decrypt_dict, hk', hw, ih]
      · simp [encrypt_or_decrypt_dict, hk', hw]

/-- Claim C10: sealing a mapping that holds a non-string scalar (number,
boolean, or null) under a target-set key raises `TypeError` — an error
kind that is none of `InvalidPolicy`, `DecryptionFailed`,
`DeserializationError` — because `_encrypt` requires a UTF-8 string. -/
theorem C10_nonstring_target_scalar_type_error (tfs : List String)
    (ring : KeyRing) (pre post : List (String × JValue)) (k : String)
    (v : JValue) (hk : k ∈ tfs) (hv : v.nonStringScalar = true) :
    get_prep_value ⟨false, tfs⟩ ring (.obj (pre ++ (k, v) :: post)) = .error .typeError
    ∧ Err.typeError ≠ Err.invalidPolicy
    ∧ Err.typeError ≠ Err.decryptionFailed
    ∧ Err.typeError ≠ Err.deserializationError := by
  refine ⟨?_, by decide, by decide, by decide⟩
  have hdict := enc_dict_target_scalar_error ⟨false, tfs⟩ ring post k v hk hv pre
  simp [get_prep_value, encrypt_or_decrypt_value, hdict]

/-- Witness for C10: sealing `{"secret": 5}` under
`TargetFields({"secret"})` raises `TypeError`. -/
theorem C10_witness :
    get_prep_value ⟨false, ["secret"]⟩ ⟨0, []⟩ (.obj [("secret", .num 5)])
      = .error .typeError :=
  (C10_nonstring_target_scalar_type_error ["secret"] ⟨0, []⟩ [] [] "secret"
      (.num 5) (by decide) rfl).1
